import Mathlib

/-!
Verification of `data/gen_packetIDs.go`: a code generator that downloads a
JSON protocol schema, navigates it to packet-id-to-name mappings for three
protocol phases and two directions, resolves cross-direction name
collisions, and prints a constant block.

The JSON value tree, the navigation (`unnest`, the type-assertion chain of
`unpackMapping`), collision resolution (`EnsureUniqueNames`), width
computation (`MaxLen`) and the printed lines of `main` are embedded below.
Go maps are modelled as association lists whose order stands in for Go's
unspecified iteration order; Go's `map[k]=v` / `delete` / comma-ok reads
are modelled by `mapInsert` / `mapDelete` / `lookupStr`.  A bare Go type
assertion (no comma-ok) terminates the program abnormally on mismatch,
which is modelled by the `GoError.panicked` outcome, distinct from a
returned `error` (`GoError.schemaErr`).
-/

set_option autoImplicit false

namespace PacketGen

/-- A decoded generic JSON value, as produced by `json.Decode` into
`map[string]interface{}`. Numbers are kept as text (their shape is never
inspected by the generator). -/
inductive JValue where
  | str (s : String)
  | num (s : String)
  | bool (b : Bool)
  | null
  | obj (fields : List (String × JValue))
  | arr (items : List JValue)

/-- Go type name of a decoded JSON value, as `%T` prints it. -/
def typeName : JValue → String
  | JValue.str _ => "string"
  | JValue.num _ => "float64"
  | JValue.bool _ => "bool"
  | JValue.null => "<nil>"
  | JValue.obj _ => "map[string]interface \x7b\x7d"
  | JValue.arr _ => "[]interface \x7b\x7d"

/-- Comma-ok read from a `map[string]interface{}` (association list). -/
def jLookup : List (String × JValue) → String → Option JValue
  | [], _ => none
  | (k2, v) :: rest, k => if k2 = k then some v else jLookup rest k

/-- Plain read from a `map[string]interface{}`: a missing key yields the
zero value `nil`. -/
def jGet (o : List (String × JValue)) (k : String) : JValue :=
  (jLookup o k).getD JValue.null

/-- Checked cast of an `interface{}` value to `map[string]interface{}`. -/
def asObj : JValue → Option (List (String × JValue))
  | JValue.obj o => some o
  | _ => none

/-- `unnest` from gen_packetIDs.go: walk the given keys through nested
string maps, failing with a returned error on a missing key or on a value
that is not a string map. It uses only comma-ok forms, so it cannot
terminate abnormally. -/
def unnest (input : List (String × JValue)) : List String → Except String (List (String × JValue))
  | [] => Except.ok input
  | k :: ks =>
    match jLookup input k with
    | none => Except.error ("key \"" ++ k ++ "\" not found")
    | some sub =>
      match asObj sub with
      | none => Except.error ("key \"" ++ k ++ "\" was " ++ typeName sub ++ ", expected a string map")
      | some next => unnest next ks

/-- An abnormal or error outcome of a run: `schemaErr` is a Go `error`
value returned up the call chain, `panicked` is a runtime panic raised by
a failed bare type assertion or list index. -/
inductive GoError where
  | schemaErr (msg : String)
  | panicked (msg : String)
deriving DecidableEq

/-- Bare type assertion `v.([]interface{})`: panics on mismatch. -/
def goAssertArr (v : JValue) : Except GoError (List JValue) :=
  match v with
  | JValue.arr l => Except.ok l
  | _ => Except.error (GoError.panicked ("interface conversion: interface \x7b\x7d is " ++ typeName v ++ ", not []interface \x7b\x7d"))

/-- Bare type assertion `v.(map[string]interface{})`: panics on mismatch. -/
def goAssertObj (v : JValue) : Except GoError (List (String × JValue)) :=
  match v with
  | JValue.obj o => Except.ok o
  | _ => Except.error (GoError.panicked ("interface conversion: interface \x7b\x7d is " ++ typeName v ++ ", not map[string]interface \x7b\x7d"))

/-- Bare type assertion `v.(string)`: panics on mismatch. -/
def goAssertStr (v : JValue) : Except GoError String :=
  match v with
  | JValue.str s => Except.ok s
  | _ => Except.error (GoError.panicked ("interface conversion: interface \x7b\x7d is " ++ typeName v ++ ", not string"))

/-- List indexing `l[i]`: panics when out of range. -/
def goIndex (l : List JValue) (i : Nat) : Except GoError JValue :=
  if h : i < l.length then Except.ok (l.get ⟨i, h⟩)
  else Except.error (GoError.panicked "runtime error: index out of range")

/-- Modelled from the spec: the name normalization `strcase.ToCamel` is an
external dependency whose source is not part of this repository; per the
spec each raw declared name is converted to a canonical identifier-friendly
form (capitalized, no separators). Separators are dropped and the character
following a separator (and the first character) is upper-cased. -/
def capCamel : Bool → List Char → List Char
  | _, [] => []
  | cap, c :: rest =>
    if c = '_' ∨ c = ' ' ∨ c = '-' then capCamel true rest
    else (if cap then c.toUpper else c) :: capCamel false rest

/-- Modelled from the spec: see `capCamel`. -/
def toCamel (s : String) : String := String.mk (capCamel true s.data)

/-- Comma-ok read from a `map[string]string`. -/
def lookupStr : List (String × String) → String → Option String
  | [], _ => none
  | (k2, v) :: rest, k => if k2 = k then some v else lookupStr rest k

/-- Go map write `m[k] = v`: overwrite the entry for `k` if present
(a Go map holds at most one entry per key), or add a new entry. -/
def mapInsert : List (String × String) → String → String → List (String × String)
  | [], k, v => [(k, v)]
  | (k2, w) :: rest, k, v =>
    if k2 = k then (k, v) :: rest else (k2, w) :: mapInsert rest k v

/-- Go map `delete(m, k)`. -/
def mapDelete : List (String × String) → String → List (String × String)
  | [], _ => []
  | (k2, w) :: rest, k =>
    if k2 = k then mapDelete rest k else (k2, w) :: mapDelete rest k

/-- The two directional packet-name-to-id maps of one phase. -/
structure duplexMappings where
  Clientbound : List (String × String)
  Serverbound : List (String × String)
deriving DecidableEq

/-- One iteration of the loop body of `EnsureUniqueNames` at key `k`:
if `k` is also a Serverbound key, delete it from both maps and reinsert
it under the direction-suffixed names with the original values. -/
def ensureStep (m : duplexMappings) (k : String) : duplexMappings :=
  if (lookupStr m.Serverbound k).isSome then
    { Clientbound := mapInsert (mapDelete m.Clientbound k) (k ++ "Clientbound") ((lookupStr m.Clientbound k).getD "")
      Serverbound := mapInsert (mapDelete m.Serverbound k) (k ++ "Serverbound") ((lookupStr m.Serverbound k).getD "") }
  else m

/-- `duplexMappings.EnsureUniqueNames`: snapshot the Clientbound keys,
then run the collision-resolution step over each of them. -/
def duplexMappings.EnsureUniqueNames (m : duplexMappings) : duplexMappings :=
  (m.Clientbound.map Prod.fst).foldl ensureStep m

/-- The part of `unpackMapping` that handles one direction `dirKey`
(`"toClient"` or `"toServer"`): `unnest` to the `types` object (returned
errors propagate), then the bare type-assertion chain
`info["packet"].([]interface{})[1].([]interface{})[0].(map[string]interface{})["type"]`
followed by `.([]interface{})[1].(map[string]interface{})["mappings"].(map[string]interface{})`
(mismatches panic), then the insertion loop over the mappings. -/
def extractMappings (info : List (String × JValue)) : Except GoError (List (String × JValue)) := do
  let packetL ← goAssertArr (jGet info "packet")
  let second ← goIndex packetL 1
  let secondL ← goAssertArr second
  let first ← goIndex secondL 0
  let firstM ← goAssertObj first
  let tL ← goAssertArr (jGet firstM "type")
  let t1 ← goIndex tL 1
  let t1M ← goAssertObj t1
  goAssertObj (jGet t1M "mappings")

/-- The loop `for k, v := range mappings { out[strcase.ToCamel(v.(string))] = k }`. -/
def buildDir : List (String × JValue) → List (String × String) → Except GoError (List (String × String))
  | [], acc => Except.ok acc
  | (k, v) :: rest, acc => do
    let s ← goAssertStr v
    buildDir rest (mapInsert acc (toCamel s) k)

/-- One direction of `unpackMapping`. -/
def dirMapping (data : List (String × JValue)) (gameState dirKey : String) : Except GoError (List (String × String)) := do
  let info ← match unnest data [gameState, dirKey, "types"] with
    | Except.ok o => Except.ok o
    | Except.error e => Except.error (GoError.schemaErr e)
  let ms ← extractMappings info
  buildDir ms []

/-- `unpackMapping` from gen_packetIDs.go. -/
def unpackMapping (data : List (String × JValue)) (gameState : String) : Except GoError duplexMappings := do
  let cb ← dirMapping data gameState "toClient"
  let sb ← dirMapping data gameState "toServer"
  Except.ok { Clientbound := cb, Serverbound := sb }

/-- The three phase mapping pairs. -/
structure protocolIDs where
  Login : duplexMappings
  Play : duplexMappings
  Status : duplexMappings
deriving DecidableEq

/-- Error wrapping `fmt.Errorf("<label>: %v", err)` applied to a returned
error; a panic propagates unwrapped. -/
def wrapPhase {α : Type} (label : String) : Except GoError α → Except GoError α
  | Except.ok a => Except.ok a
  | Except.error (GoError.schemaErr e) => Except.error (GoError.schemaErr (label ++ ": " ++ e))
  | Except.error (GoError.panicked e) => Except.error (GoError.panicked e)

/-- The post-decode body of `downloadInfo`: unpack the three phases in
order, wrapping each returned error with a phase label (the status branch
of the source wraps with the label "play"), and resolve collisions per
phase. The HTTP fetch and JSON decode that precede this are outside the
embedded fragment; `data` is the already-decoded document. -/
def buildProtocolIDs (data : List (String × JValue)) : Except GoError protocolIDs := do
  let loginRaw ← wrapPhase "login" (unpackMapping data "login")
  let login := loginRaw.EnsureUniqueNames
  let playRaw ← wrapPhase "play" (unpackMapping data "play")
  let play := playRaw.EnsureUniqueNames
  let statusRaw ← wrapPhase "play" (unpackMapping data "status")
  let status := statusRaw.EnsureUniqueNames
  Except.ok { Login := login, Play := play, Status := status }

/-- The fold step of `MaxLen`: track the largest key length. -/
def maxLenStep (mx : Nat) (kv : String × String) : Nat :=
  if kv.1.length > mx then kv.1.length else mx

/-- Fold `maxLenStep` over one directional map. -/
def maxLenMap (mx : Nat) (m : List (String × String)) : Nat :=
  m.foldl maxLenStep mx

/-- `protocolIDs.MaxLen`: the maximum key length over both directions of
all three phases, visited in the order of the source loops. -/
def protocolIDs.MaxLen (p : protocolIDs) : Nat :=
  maxLenMap (maxLenMap (maxLenMap (maxLenMap (maxLenMap (maxLenMap 0 p.Login.Clientbound) p.Login.Serverbound) p.Play.Clientbound) p.Play.Serverbound) p.Status.Clientbound) p.Status.Serverbound

/-- `strings.Repeat(" ", n)`. -/
def spaces (n : Nat) : String := String.mk (List.replicate n ' ')

/-- One declaration line, as printed by
`fmt.Fprintf(f, "  %s%s PktID = %s\n", k, strings.Repeat(" ", maxLen-len(k)), v)`. -/
def declLine (maxLen : Nat) (kv : String × String) : String :=
  "  " ++ kv.1 ++ spaces (maxLen - kv.1.length) ++ " PktID = " ++ kv.2

/-- The declaration lines of one direction group. -/
def groupDecls (maxLen : Nat) (m : List (String × String)) : List String :=
  m.map (declLine maxLen)

def loginCBComment : String := "  // Clientbound packets for connections in the login state."

def loginSBComment : String := "  // Serverbound packets for connections in the login state."

def playCBComment : String := "  // Clientbound packets for connections in the play state."

def playSBComment : String := "  // Serverbound packets for connections in the play state."

def statusCBComment : String := "  // Clientbound packets used to respond to ping/status requests."

def statusSBComment : String := "  // Serverbound packets used to ping or read server status."

/-- The fixed lines printed by `main` before the constant groups. -/
def headerLines : List String :=
  ["// This file is automatically generated by gen_packetIDs.go. DO NOT EDIT.",
   "",
   "package data",
   "",
   "//go:generate go run gen_packetIDs.go",
   "",
   "// PktID represents a packet ID used in the minecraft protocol.",
   "type PktID int32",
   "",
   "// Valid PktID values.",
   "const ("]

/-- The lines of the generated file, in the order `main` prints them. -/
def outputLines (p : protocolIDs) : List String :=
  headerLines ++
  (loginCBComment :: groupDecls p.MaxLen p.Login.Clientbound) ++
  (loginSBComment :: groupDecls p.MaxLen p.Login.Serverbound) ++ [""] ++
  (playCBComment :: groupDecls p.MaxLen p.Play.Clientbound) ++
  (playSBComment :: groupDecls p.MaxLen p.Play.Serverbound) ++ [""] ++
  (statusCBComment :: groupDecls p.MaxLen p.Status.Clientbound) ++
  (statusSBComment :: groupDecls p.MaxLen p.Status.Serverbound) ++ [""] ++
  [")"]

/-- The six direction groups' declaration lines, in output order. -/
def declLinesAll (p : protocolIDs) : List String :=
  groupDecls p.MaxLen p.Login.Clientbound ++ groupDecls p.MaxLen p.Login.Serverbound ++
  groupDecls p.MaxLen p.Play.Clientbound ++ groupDecls p.MaxLen p.Play.Serverbound ++
  groupDecls p.MaxLen p.Status.Clientbound ++ groupDecls p.MaxLen p.Status.Serverbound

/-- All entries of the six directional maps, in output order. -/
def allEntries (p : protocolIDs) : List (String × String) :=
  p.Login.Clientbound ++ p.Login.Serverbound ++ p.Play.Clientbound ++
  p.Play.Serverbound ++ p.Status.Clientbound ++ p.Status.Serverbound

/-- All emitted identifier names, in output order. -/
def allNames (p : protocolIDs) : List String :=
  (allEntries p).map Prod.fst

/-- The emitted identifier names of one phase (both directions). -/
def phaseNames (m : duplexMappings) : List String :=
  m.Clientbound.map Prod.fst ++ m.Serverbound.map Prod.fst

/-- The outcome of `main`: the file's lines on success; printing
`Error: ...` and exiting with status 1 before any file is created, on a
returned error; abnormal termination (a panic, exit status 2, no file
created) when a bare assertion failed. -/
inductive mainOutcome where
  | wrote (lines : List String)
  | exitOne (msg : String)
  | aborted (msg : String)
deriving DecidableEq

/-- `main`, from the decoded document onward. -/
def runMain (data : List (String × JValue)) : mainOutcome :=
  match buildProtocolIDs data with
  | Except.error (GoError.schemaErr e) => mainOutcome.exitOne ("Error: " ++ e)
  | Except.error (GoError.panicked e) => mainOutcome.aborted e
  | Except.ok p => mainOutcome.wrote (outputLines p)

/-- Neither direction-suffixed form of the name `i` occurs as a key of
either directional map of `m`. -/
abbrev freshAt (m : duplexMappings) (i : String) : Prop :=
  lookupStr m.Clientbound (i ++ "Clientbound") = none ∧
  lookupStr m.Serverbound (i ++ "Clientbound") = none ∧
  lookupStr m.Clientbound (i ++ "Serverbound") = none ∧
  lookupStr m.Serverbound (i ++ "Serverbound") = none

/-- The identifier field of a declaration line: the name together with its
padding, as the spec describes it (name padded with spaces to the
alignment width). -/
def identField (w : Nat) (name : String) : String :=
  name ++ spaces (w - name.length)

/-- A declaration line as the spec describes it: the identifier name
padded with spaces to `maxLen` columns, an explicit type annotation, and
the numeric id text copied verbatim. -/
def specDecl (w : Nat) (kv : String × String) : String :=
  "  " ++ identField w kv.1 ++ (" PktID = " ++ kv.2)

/-- A direction group as the spec describes it: a descriptive comment
line, then one declaration line per entry. -/
def specGroup (w : Nat) (comment : String) (m : List (String × String)) : List String :=
  comment :: m.map (specDecl w)

/-- The constant block as the spec describes it: the six direction groups
in the fixed order login-clientbound, login-serverbound, blank line,
play-clientbound, play-serverbound, blank line, status-clientbound,
status-serverbound, blank line. -/
def specConstBlock (p : protocolIDs) : List String :=
  specGroup p.MaxLen loginCBComment p.Login.Clientbound ++
  specGroup p.MaxLen loginSBComment p.Login.Serverbound ++ [""] ++
  specGroup p.MaxLen playCBComment p.Play.Clientbound ++
  specGroup p.MaxLen playSBComment p.Play.Serverbound ++ [""] ++
  specGroup p.MaxLen statusCBComment p.Status.Clientbound ++
  specGroup p.MaxLen statusSBComment p.Status.Serverbound ++ [""]

/-- A protocol phase. -/
inductive PhaseName where
  | login
  | play
  | status
deriving DecidableEq

/-- A packet direction. -/
inductive DirName where
  | clientbound
  | serverbound
deriving DecidableEq

/-- The duplex mapping of a phase. -/
def phaseMap (p : protocolIDs) : PhaseName → duplexMappings
  | PhaseName.login => p.Login
  | PhaseName.play => p.Play
  | PhaseName.status => p.Status

/-- One directional map of a duplex mapping. -/
def dirMap (m : duplexMappings) : DirName → List (String × String)
  | DirName.clientbound => m.Clientbound
  | DirName.serverbound => m.Serverbound

/-- The descriptive comment line of each direction group. -/
def commentOf : PhaseName → DirName → String
  | PhaseName.login, DirName.clientbound => loginCBComment
  | PhaseName.login, DirName.serverbound => loginSBComment
  | PhaseName.play, DirName.clientbound => playCBComment
  | PhaseName.play, DirName.serverbound => playSBComment
  | PhaseName.status, DirName.clientbound => statusCBComment
  | PhaseName.status, DirName.serverbound => statusSBComment

/-- The lines one direction group contributes to the output. -/
def groupLines (p : protocolIDs) (ph : PhaseName) (d : DirName) : List String :=
  commentOf ph d :: groupDecls p.MaxLen (dirMap (phaseMap p ph) d)

/-- The navigation described by the spec for `unnest`: walking the keys in
order, fail when some key is absent from the current map or its value is
not a nested string-keyed map, and otherwise return the map reached after
the last key. -/
def unnestSpec (input : List (String × JValue)) : List String → Option (List (String × JValue))
  | [] => some input
  | k :: ks =>
    match jLookup input k with
    | some (JValue.obj o) => unnestSpec o ks
    | _ => none

/-- An empty duplex mapping. -/
def emptyDuplex : duplexMappings :=
  { Clientbound := [], Serverbound := [] }

/-- The phase mappings produced by a successful run on `data` (the empty
result when the run fails; used only to name the payload of a successful
`buildProtocolIDs` outcome in concrete statements). -/
def builtIDs (data : List (String × JValue)) : protocolIDs :=
  match buildProtocolIDs data with
  | Except.ok p => p
  | Except.error _ => { Login := emptyDuplex, Play := emptyDuplex, Status := emptyDuplex }

/-- Fixture: a direction object of the shape the navigation expects,
holding the given id-to-name `mappings`. -/
def mkDir (mappings : List (String × JValue)) : JValue :=
  let mapper := JValue.obj [("type", JValue.str "varint"), ("mappings", JValue.obj mappings)]
  let field := JValue.obj [("name", JValue.str "name"), ("type", JValue.arr [JValue.str "mapper", mapper])]
  let packet := JValue.arr [JValue.str "container", JValue.arr [field]]
  JValue.obj [("types", JValue.obj [("packet", packet)])]

/-- Fixture: a phase object with both direction objects. -/
def mkPhase (cb sb : List (String × JValue)) : JValue :=
  JValue.obj [("toClient", mkDir cb), ("toServer", mkDir sb)]

/-- Fixture for C1: the `login/toClient/types` object exists but has no
`packet` key, so `unnest` succeeds and the bare assertion chain runs on
`nil`. -/
def c1Data : List (String × JValue) :=
  [("login", JValue.obj [
    ("toClient", JValue.obj [("types", JValue.obj [("other", JValue.str "x")])]),
    ("toServer", mkDir [])])]

/-- Fixture for C2: login and play phases are complete, the status phase
is missing its `toClient` key. -/
def c2Data : List (String × JValue) :=
  [("login", mkPhase [("0x00", JValue.str "disconnect")] [("0x00", JValue.str "login_start")]),
   ("play", mkPhase [("0x0F", JValue.str "chat")] [("0x03", JValue.str "use_item")]),
   ("status", JValue.obj [("toServer", mkDir [("0x01", JValue.str "ping")])])]

/-- Fixture for C3: the two directions share the name `Chat`, and the
serverbound map already holds a key equal to the suffixed form
`ChatClientbound`. -/
def c3m : duplexMappings :=
  { Clientbound := [("Chat", "0x05")],
    Serverbound := [("Chat", "0x03"), ("ChatClientbound", "0x07")] }

/-- Fixture for C4: `login` and `status` both declare a clientbound packet
named `ping` (different ids), with no within-phase collisions. -/
def c4Data : List (String × JValue) :=
  [("login", mkPhase [("0x00", JValue.str "ping")] [("0x00", JValue.str "login_start")]),
   ("play", mkPhase [("0x0F", JValue.str "chat")] [("0x03", JValue.str "use_item")]),
   ("status", mkPhase [("0x01", JValue.str "ping")] [("0x01", JValue.str "ping_request")])]

/-- Fixture for C7: `login` and `status` both declare a clientbound packet
named `ping` with the same id text, so two identical declaration lines are
generated. -/
def c7Data : List (String × JValue) :=
  [("login", mkPhase [("0x00", JValue.str "ping")] [("0x01", JValue.str "login_start")]),
   ("play", mkPhase [("0x0F", JValue.str "chat")] [("0x03", JValue.str "use_item")]),
   ("status", mkPhase [("0x00", JValue.str "ping")] [("0x01", JValue.str "ping_request")])]

/-- Fixture for C10: two raw names in one directional mapping that
normalize to the same camel-case identifier. -/
def c10RawMappings : List (String × JValue) :=
  [("0x00", JValue.str "chat"), ("0x01", JValue.str "Chat")]

/-- Fixture for C10: a document whose play phase uses `c10RawMappings`
clientbound. -/
def c10Data : List (String × JValue) :=
  [("play", mkPhase c10RawMappings [("0x03", JValue.str "use_item")])]

/-- The duplex mapping `unpackMapping` produces for the play phase of
`c10Data`: the entry for id `0x00` has been overwritten. -/
def c10Result : duplexMappings :=
  { Clientbound := [("Chat", "0x01")], Serverbound := [("UseItem", "0x03")] }

/-- Fixture for the C3 witness: the spec's own scenario (§8), already
normalized. -/
def w3m : duplexMappings :=
  { Clientbound := [("SpawnEntity", "5"), ("Chat", "6")],
    Serverbound := [("Chat", "3"), ("UseItem", "7")] }

/-- Fixture for the C4 witness: a phase with one collision and fresh
suffixed names. -/
def w4m : duplexMappings :=
  { Clientbound := [("Chat", "0x0F"), ("Pong", "0x01")],
    Serverbound := [("Chat", "0x03")] }

/-- Fixture for witnesses that need a concrete `protocolIDs` value. -/
def w5p : protocolIDs :=
  { Login := { Clientbound := [("Disconnect", "0x00")], Serverbound := [("LoginStart", "0x00")] },
    Play := { Clientbound := [("ChatClientbound", "0x0F")], Serverbound := [("ChatServerbound", "0x03")] },
    Status := { Clientbound := [("Pong", "0x01")], Serverbound := [("Ping", "0x01")] } }

/-- Fixture for the C8 witness: a run whose status serverbound group is
empty. -/
def w8p : protocolIDs :=
  { Login := { Clientbound := [("Disconnect", "0x00")], Serverbound := [("LoginStart", "0x00")] },
    Play := { Clientbound := [("Chat", "0x0F")], Serverbound := [("UseItem", "0x03")] },
    Status := { Clientbound := [("Pong", "0x01")], Serverbound := [] } }

/-! ### Basic lemmas about strings and the Go-map model -/

theorem ne_symm_str {a b : String} (h : ¬a = b) : ¬b = a :=
  fun h2 => h h2.symm

theorem string_append_inj (a b s t : String) (h : a ++ s = b ++ t)
    (hl : s.length = t.length) : a = b ∧ s = t := by
  have hd : a.data ++ s.data = b.data ++ t.data := by
    have h2 := congrArg String.data h
    simpa using h2
  have hlen : s.data.length = t.data.length := hl
  have h3 := List.append_inj' hd hlen
  obtain ⟨d1⟩ := a
  obtain ⟨d2⟩ := b
  obtain ⟨d3⟩ := s
  obtain ⟨d4⟩ := t
  exact ⟨congrArg String.mk h3.1, congrArg String.mk h3.2⟩

theorem appendCB_inj (k j : String) (h : k ++ "Clientbound" = j ++ "Clientbound") : k = j :=
  (string_append_inj k j "Clientbound" "Clientbound" h rfl).1

theorem appendSB_inj (k j : String) (h : k ++ "Serverbound" = j ++ "Serverbound") : k = j :=
  (string_append_inj k j "Serverbound" "Serverbound" h rfl).1

theorem self_ne_append (j s : String) (hs : s.length ≠ 0) : ¬j = j ++ s := by
  intro h
  have h2 := congrArg String.length h
  rw [String.length_append] at h2
  omega

theorem self_ne_appendCB (j : String) : ¬j = j ++ "Clientbound" :=
  self_ne_append j "Clientbound" (by decide)

theorem self_ne_appendSB (j : String) : ¬j = j ++ "Serverbound" :=
  self_ne_append j "Serverbound" (by decide)

theorem appendCB_ne_appendSB (k j : String) : k ++ "Clientbound" ≠ j ++ "Serverbound" := by
  intro h
  have h2 := (string_append_inj k j "Clientbound" "Serverbound" h rfl).2
  simp at h2

theorem mem_keys_iff (m : List (String × String)) (x : String) :
    x ∈ m.map Prod.fst ↔ (lookupStr m x).isSome = true := by
  induction m with
  | nil => simp [lookupStr]
  | cons p rest ih =>
    obtain ⟨k2, v⟩ := p
    by_cases h : k2 = x
    · subst h
      simp [lookupStr]
    · simp [lookupStr, h, ne_symm_str h, ih]

theorem lookupStr_mapDelete (m : List (String × String)) (k x : String) :
    lookupStr (mapDelete m k) x = if x = k then none else lookupStr m x := by
  induction m with
  | nil => by_cases h : x = k <;> simp [mapDelete, lookupStr, h]
  | cons p rest ih =>
    obtain ⟨k2, v⟩ := p
    by_cases h1 : k2 = k
    · subst h1
      by_cases h2 : x = k2
      · subst h2
        simp [mapDelete, lookupStr, ih]
      · simp [mapDelete, lookupStr, ih, h2, ne_symm_str h2]
    · by_cases h2 : k2 = x
      · subst h2
        simp [mapDelete, lookupStr, h1, ne_symm_str h1]
      · by_cases h3 : x = k
        · subst h3
          simp [mapDelete, lookupStr, h1, h2, ih]
        · simp [mapDelete, lookupStr, h1, h2, h3, ih]

theorem lookupStr_mapInsert (m : List (String × String)) (k v x : String) :
    lookupStr (mapInsert m k v) x = if x = k then some v else lookupStr m x := by
  induction m with
  | nil =>
    by_cases h : x = k
    · subst h
      simp [mapInsert, lookupStr]
    · simp [mapInsert, lookupStr, h, ne_symm_str h]
  | cons p rest ih =>
    obtain ⟨k2, w⟩ := p
    by_cases h1 : k2 = k
    · subst h1
      by_cases h2 : x = k2
      · subst h2
        simp [mapInsert, lookupStr]
      · simp [mapInsert, lookupStr, h2, ne_symm_str h2]
    · by_cases h2 : k2 = x
      · subst h2
        simp [mapInsert, lookupStr, h1, ne_symm_str h1]
      · by_cases h3 : x = k
        · subst h3
          simp [mapInsert, lookupStr, h1, h2, ih]
        · simp [mapInsert, lookupStr, h1, h2, h3, ih]

theorem mem_keys_mapInsert (m : List (String × String)) (k v x : String) :
    x ∈ (mapInsert m k v).map Prod.fst ↔ x = k ∨ x ∈ m.map Prod.fst := by
  rw [mem_keys_iff, lookupStr_mapInsert, mem_keys_iff]
  by_cases h : x = k <;> simp [h]

theorem mem_keys_mapDelete (m : List (String × String)) (k x : String) :
    x ∈ (mapDelete m k).map Prod.fst ↔ x ≠ k ∧ x ∈ m.map Prod.fst := by
  rw [mem_keys_iff, lookupStr_mapDelete, mem_keys_iff]
  by_cases h : x = k <;> simp [h]

theorem keys_nodup_mapDelete (m : List (String × String)) (k : String)
    (h : (m.map Prod.fst).Nodup) : ((mapDelete m k).map Prod.fst).Nodup := by
  induction m with
  | nil => simp [mapDelete]
  | cons p rest ih =>
    obtain ⟨k2, v⟩ := p
    simp only [List.map_cons, List.nodup_cons] at h
    by_cases h1 : k2 = k
    · simp [mapDelete, h1, ih h.2]
    · have hmem : k2 ∉ (mapDelete rest k).map Prod.fst := by
        intro hm
        exact h.1 ((mem_keys_mapDelete rest k k2).mp hm).2
      simp [mapDelete, h1, List.nodup_cons, hmem, ih h.2]

theorem keys_nodup_mapInsert (m : List (String × String)) (k v : String)
    (h : (m.map Prod.fst).Nodup) : ((mapInsert m k v).map Prod.fst).Nodup := by
  induction m with
  | nil => simp [mapInsert]
  | cons p rest ih =>
    obtain ⟨k2, w⟩ := p
    simp only [List.map_cons, List.nodup_cons] at h
    by_cases h1 : k2 = k
    · have hmem : k ∉ rest.map Prod.fst := h1 ▸ h.1
      simp [mapInsert, h1, List.nodup_cons, hmem, h.2]
    · have hmem : k2 ∉ (mapInsert rest k v).map Prod.fst := by
        intro hm
        rcases (mem_keys_mapInsert rest k v k2).mp hm with h2 | h2
        · exact h1 h2
        · exact h.1 h2
      simp [mapInsert, h1, List.nodup_cons, hmem, ih h.2]

/-! ### Lemmas about one collision-resolution step -/

theorem ensureStep_lookup_C (m : duplexMappings) (j x : String)
    (hfire : (lookupStr m.Serverbound j).isSome = true) :
    lookupStr (ensureStep m j).Clientbound x =
      if x = j ++ "Clientbound" then some ((lookupStr m.Clientbound j).getD "")
      else if x = j then none
      else lookupStr m.Clientbound x := by
  simp only [ensureStep, hfire, if_true]
  rw [lookupStr_mapInsert, lookupStr_mapDelete]

theorem ensureStep_lookup_S (m : duplexMappings) (j x : String)
    (hfire : (lookupStr m.Serverbound j).isSome = true) :
    lookupStr (ensureStep m j).Serverbound x =
      if x = j ++ "Serverbound" then some ((lookupStr m.Serverbound j).getD "")
      else if x = j then none
      else lookupStr m.Serverbound x := by
  simp only [ensureStep, hfire, if_true]
  rw [lookupStr_mapInsert, lookupStr_mapDelete]

theorem ensureStep_nofire (m : duplexMappings) (j : String)
    (h : (lookupStr m.Serverbound j).isSome = false) : ensureStep m j = m := by
  simp [ensureStep, h]

/-- Keys that are neither processed nor equal to any suffixed form of a
processed key keep their bindings through the resolution fold. -/
theorem foldl_ensureStep_frame (ks : List String) (m : duplexMappings) (x : String)
    (hx1 : x ∉ ks)
    (hxC : ∀ k ∈ ks, x ≠ k ++ "Clientbound")
    (hxS : ∀ k ∈ ks, x ≠ k ++ "Serverbound") :
    lookupStr (ks.foldl ensureStep m).Clientbound x = lookupStr m.Clientbound x ∧
    lookupStr (ks.foldl ensureStep m).Serverbound x = lookupStr m.Serverbound x := by
  induction ks generalizing m with
  | nil => exact ⟨rfl, rfl⟩
  | cons j ks2 ih =>
    have hx1' : x ∉ ks2 := fun h => hx1 (List.mem_cons_of_mem _ h)
    have hxj : x ≠ j := fun h => hx1 (h ▸ List.mem_cons_self _ _)
    have step : lookupStr (ensureStep m j).Clientbound x = lookupStr m.Clientbound x ∧
        lookupStr (ensureStep m j).Serverbound x = lookupStr m.Serverbound x := by
      by_cases hfire : (lookupStr m.Serverbound j).isSome = true
      · constructor
        · rw [ensureStep_lookup_C m j x hfire]
          simp [hxC j (List.mem_cons_self _ _), hxj]
        · rw [ensureStep_lookup_S m j x hfire]
          simp [hxS j (List.mem_cons_self _ _), hxj]
      · rw [ensureStep_nofire m j (Bool.eq_false_iff.mpr hfire)]
        exact ⟨rfl, rfl⟩
    have ihr := ih (ensureStep m j) hx1'
      (fun k hk => hxC k (List.mem_cons_of_mem _ hk))
      (fun k hk => hxS k (List.mem_cons_of_mem _ hk))
    simp only [List.foldl_cons]
    exact ⟨ihr.1.trans step.1, ihr.2.trans step.2⟩

/-- Running the step at `j` preserves, for the remaining keys, both their
presence in the Clientbound map and the freshness of their suffixed
forms. -/
theorem ensureStep_preserves (m : duplexMappings) (j : String) (ks2 : List String)
    (hfire : (lookupStr m.Serverbound j).isSome = true)
    (hfj : freshAt m j)
    (hj2 : j ∉ ks2)
    (hks : ∀ i ∈ ks2, (lookupStr m.Clientbound i).isSome = true)
    (hfresh : ∀ i ∈ ks2, (lookupStr m.Serverbound i).isSome = true → freshAt m i) :
    (∀ i ∈ ks2, (lookupStr (ensureStep m j).Clientbound i).isSome = true) ∧
    (∀ i ∈ ks2, (lookupStr (ensureStep m j).Serverbound i).isSome = true →
      freshAt (ensureStep m j) i) := by
  constructor
  · intro i hi
    rw [ensureStep_lookup_C m j i hfire]
    by_cases h1 : i = j ++ "Clientbound"
    · simp [h1]
    · have h2 : i ≠ j := fun h => hj2 (h ▸ hi)
      simp [h1, h2, hks i hi]
  · intro i hi hS2
    have h2 : i ≠ j := fun h => hj2 (h ▸ hi)
    have hSm : (lookupStr m.Serverbound i).isSome = true := by
      rw [ensureStep_lookup_S m j i hfire] at hS2
      by_cases h3 : i = j ++ "Serverbound"
      · exfalso
        have h4 := hks i hi
        rw [h3, hfj.2.2.1] at h4
        simp at h4
      · simpa [h3, h2] using hS2
    have h4 := hfresh i hi hSm
    have hne1 : i ++ "Clientbound" ≠ j ++ "Clientbound" :=
      fun h => h2 (appendCB_inj i j h)
    have hne2 : i ++ "Clientbound" ≠ j ++ "Serverbound" := appendCB_ne_appendSB i j
    have hne3 : i ++ "Serverbound" ≠ j ++ "Clientbound" :=
      fun h => appendCB_ne_appendSB j i h.symm
    have hne4 : i ++ "Serverbound" ≠ j ++ "Serverbound" :=
      fun h => h2 (appendSB_inj i j h)
    refine ⟨?_, ?_, ?_, ?_⟩
    · rw [ensureStep_lookup_C m j _ hfire]
      by_cases h5 : i ++ "Clientbound" = j
      · simp [hne1, h5, self_ne_appendCB j]
      · simp [hne1, h5, h4.1]
    · rw [ensureStep_lookup_S m j _ hfire]
      by_cases h5 : i ++ "Clientbound" = j
      · simp [hne2, h5, self_ne_appendSB j]
      · simp [hne2, h5, h4.2.1]
    · rw [ensureStep_lookup_C m j _ hfire]
      by_cases h5 : i ++ "Serverbound" = j
      · simp [hne3, h5, self_ne_appendCB j]
      · simp [hne3, h5, h4.2.2.1]
    · rw [ensureStep_lookup_S m j _ hfire]
      by_cases h5 : i ++ "Serverbound" = j
      · simp [hne4, h5, self_ne_appendSB j]
      · simp [hne4, h5, h4.2.2.2]

/-- Every name shared by both directions when its turn comes is reinserted
under its two suffixed forms with the original values, and those bindings
survive to the end of the fold. -/
theorem foldl_ensureStep_processed (ks : List String) (m : duplexMappings) (k : String)
    (hnd : ks.Nodup) (hk : k ∈ ks)
    (hks : ∀ j ∈ ks, (lookupStr m.Clientbound j).isSome = true)
    (hfresh : ∀ j ∈ ks, (lookupStr m.Serverbound j).isSome = true → freshAt m j)
    (hSk : (lookupStr m.Serverbound k).isSome = true) :
    lookupStr (ks.foldl ensureStep m).Clientbound (k ++ "Clientbound") =
      lookupStr m.Clientbound k ∧
    lookupStr (ks.foldl ensureStep m).Serverbound (k ++ "Serverbound") =
      lookupStr m.Serverbound k := by
  induction ks generalizing m with
  | nil => exact absurd hk (List.not_mem_nil k)
  | cons j ks2 ih =>
    have hnd2 : ks2.Nodup := (List.nodup_cons.mp hnd).2
    have hjnot : j ∉ ks2 := (List.nodup_cons.mp hnd).1
    simp only [List.foldl_cons]
    rcases List.mem_cons.mp hk with hkj | hk2
    · subst hkj
      have hfj := hfresh k (List.mem_cons_self _ _) hSk
      have hkC := hks k (List.mem_cons_self _ _)
      obtain ⟨cv, hcv⟩ := Option.isSome_iff_exists.mp hkC
      obtain ⟨sv, hsv⟩ := Option.isSome_iff_exists.mp hSk
      have hstepC : lookupStr (ensureStep m k).Clientbound (k ++ "Clientbound") =
          lookupStr m.Clientbound k := by
        rw [ensureStep_lookup_C m k _ hSk, if_pos rfl, hcv]
        simp
      have hstepS : lookupStr (ensureStep m k).Serverbound (k ++ "Serverbound") =
          lookupStr m.Serverbound k := by
        rw [ensureStep_lookup_S m k _ hSk, if_pos rfl, hsv]
        simp
      have hframeC := foldl_ensureStep_frame ks2 (ensureStep m k) (k ++ "Clientbound")
        (by
          intro hmem
          have h5 := hks _ (List.mem_cons_of_mem _ hmem)
          rw [hfj.1] at h5
          simp at h5)
        (fun i hi h => hjnot ((appendCB_inj k i h) ▸ hi))
        (fun i hi h => appendCB_ne_appendSB k i h)
      have hframeS := foldl_ensureStep_frame ks2 (ensureStep m k) (k ++ "Serverbound")
        (by
          intro hmem
          have h5 := hks _ (List.mem_cons_of_mem _ hmem)
          rw [hfj.2.2.1] at h5
          simp at h5)
        (fun i hi h => appendCB_ne_appendSB i k h.symm)
        (fun i hi h => hjnot ((appendSB_inj k i h) ▸ hi))
      exact ⟨hframeC.1.trans hstepC, hframeS.2.trans hstepS⟩
    · by_cases hfire : (lookupStr m.Serverbound j).isSome = true
      · have hfj := hfresh j (List.mem_cons_self _ _) hfire
        have hpres := ensureStep_preserves m j ks2 hfire hfj hjnot
          (fun i hi => hks i (List.mem_cons_of_mem _ hi))
          (fun i hi => hfresh i (List.mem_cons_of_mem _ hi))
        have hkj : k ≠ j := fun h => hjnot (h ▸ hk2)
        have hkCB : k ≠ j ++ "Clientbound" := by
          intro h
          have h5 := hks k hk
          rw [h, hfj.1] at h5
          simp at h5
        have hkSB : k ≠ j ++ "Serverbound" := by
          intro h
          rw [h, hfj.2.2.2] at hSk
          simp at hSk
        have hSk2 : (lookupStr (ensureStep m j).Serverbound k).isSome = true := by
          rw [ensureStep_lookup_S m j k hfire]
          simpa [hkSB, hkj] using hSk
        have hCk2 : lookupStr (ensureStep m j).Clientbound k = lookupStr m.Clientbound k := by
          rw [ensureStep_lookup_C m j k hfire]
          simp [hkCB, hkj]
        have hSk2eq : lookupStr (ensureStep m j).Serverbound k = lookupStr m.Serverbound k := by
          rw [ensureStep_lookup_S m j k hfire]
          simp [hkSB, hkj]
        have ihr := ih (ensureStep m j) hnd2 hk2 hpres.1 hpres.2 hSk2
        exact ⟨ihr.1.trans hCk2, ihr.2.trans hSk2eq⟩
      · rw [ensureStep_nofire m j (Bool.eq_false_iff.mpr hfire)]
        exact ih m hnd2 hk2 (fun i hi => hks i (List.mem_cons_of_mem _ hi))
          (fun i hi => hfresh i (List.mem_cons_of_mem _ hi)) hSk

/-- After the fold, no key is present in both directional maps, provided
every initially shared key is in the processed list and the suffixed forms
of shared keys are fresh. -/
theorem foldl_ensureStep_disjoint (ks : List String) (m : duplexMappings)
    (hnd : ks.Nodup)
    (hks : ∀ j ∈ ks, (lookupStr m.Clientbound j).isSome = true)
    (hshared : ∀ x, (lookupStr m.Clientbound x).isSome = true →
      (lookupStr m.Serverbound x).isSome = true → x ∈ ks)
    (hfresh : ∀ j ∈ ks, (lookupStr m.Serverbound j).isSome = true → freshAt m j) :
    ∀ x, ¬((lookupStr (ks.foldl ensureStep m).Clientbound x).isSome = true ∧
      (lookupStr (ks.foldl ensureStep m).Serverbound x).isSome = true) := by
  induction ks generalizing m with
  | nil =>
    intro x hx
    exact absurd (hshared x hx.1 hx.2) (List.not_mem_nil x)
  | cons j ks2 ih =>
    have hnd2 : ks2.Nodup := (List.nodup_cons.mp hnd).2
    have hjnot : j ∉ ks2 := (List.nodup_cons.mp hnd).1
    simp only [List.foldl_cons]
    by_cases hfire : (lookupStr m.Serverbound j).isSome = true
    · have hfj := hfresh j (List.mem_cons_self _ _) hfire
      have hpres := ensureStep_preserves m j ks2 hfire hfj hjnot
        (fun i hi => hks i (List.mem_cons_of_mem _ hi))
        (fun i hi => hfresh i (List.mem_cons_of_mem _ hi))
      have hshared2 : ∀ x, (lookupStr (ensureStep m j).Clientbound x).isSome = true →
          (lookupStr (ensureStep m j).Serverbound x).isSome = true → x ∈ ks2 := by
        intro x hC hS
        rw [ensureStep_lookup_C m j x hfire] at hC
        rw [ensureStep_lookup_S m j x hfire] at hS
        by_cases hx1 : x = j ++ "Clientbound"
        · exfalso
          have hx2 : ¬x = j ++ "Serverbound" := hx1 ▸ appendCB_ne_appendSB j j
          by_cases hx3 : x = j
          · rw [if_neg hx2, if_pos hx3] at hS
            simp at hS
          · rw [if_neg hx2, if_neg hx3, hx1, hfj.2.1] at hS
            simp at hS
        · by_cases hx2 : x = j ++ "Serverbound"
          · exfalso
            by_cases hx3 : x = j
            · rw [if_neg hx1, if_pos hx3] at hC
              simp at hC
            · rw [if_neg hx1, if_neg hx3, hx2, hfj.2.2.1] at hC
              simp at hC
          · by_cases hx3 : x = j
            · rw [if_neg hx1, if_pos hx3] at hC
              simp at hC
            · rw [if_neg hx1, if_neg hx3] at hC
              rw [if_neg hx2, if_neg hx3] at hS
              rcases List.mem_cons.mp (hshared x hC hS) with h | h
              · exact absurd h hx3
              · exact h
      exact ih (ensureStep m j) hnd2 hpres.1 hshared2 hpres.2
    · rw [ensureStep_nofire m j (Bool.eq_false_iff.mpr hfire)]
      have hshared2 : ∀ x, (lookupStr m.Clientbound x).isSome = true →
          (lookupStr m.Serverbound x).isSome = true → x ∈ ks2 := by
        intro x hC hS
        rcases List.mem_cons.mp (hshared x hC hS) with h | h
        · exact absurd (h ▸ hS) hfire
        · exact h
      exact ih m hnd2 (fun i hi => hks i (List.mem_cons_of_mem _ hi)) hshared2
        (fun i hi => hfresh i (List.mem_cons_of_mem _ hi))

/-! ### Further supporting lemmas -/

theorem keys_nodup_ensureStep (m : duplexMappings) (j : String)
    (hC : (m.Clientbound.map Prod.fst).Nodup) (hS : (m.Serverbound.map Prod.fst).Nodup) :
    ((ensureStep m j).Clientbound.map Prod.fst).Nodup ∧
    ((ensureStep m j).Serverbound.map Prod.fst).Nodup := by
  by_cases hfire : (lookupStr m.Serverbound j).isSome = true
  · constructor
    · simp only [ensureStep, hfire, if_true]
      exact keys_nodup_mapInsert _ _ _ (keys_nodup_mapDelete _ _ hC)
    · simp only [ensureStep, hfire, if_true]
      exact keys_nodup_mapInsert _ _ _ (keys_nodup_mapDelete _ _ hS)
  · rw [ensureStep_nofire m j (Bool.eq_false_iff.mpr hfire)]
    exact ⟨hC, hS⟩

theorem keys_nodup_foldl_ensureStep (ks : List String) (m : duplexMappings)
    (hC : (m.Clientbound.map Prod.fst).Nodup) (hS : (m.Serverbound.map Prod.fst).Nodup) :
    (((ks.foldl ensureStep m).Clientbound.map Prod.fst).Nodup) ∧
    (((ks.foldl ensureStep m).Serverbound.map Prod.fst).Nodup) := by
  induction ks generalizing m with
  | nil => exact ⟨hC, hS⟩
  | cons j ks2 ih =>
    simp only [List.foldl_cons]
    have h := keys_nodup_ensureStep m j hC hS
    exact ih (ensureStep m j) h.1 h.2

/-- The behaviour of `EnsureUniqueNames` on a duplex mapping whose
Clientbound keys are distinct and whose shared names have fresh suffixed
forms: afterwards no key is shared, and every previously shared name is
present in suffixed form with its original value. -/
theorem EnsureUniqueNames_spec (m : duplexMappings)
    (hndC : (m.Clientbound.map Prod.fst).Nodup)
    (hfresh : ∀ k ∈ m.Clientbound.map Prod.fst,
      (lookupStr m.Serverbound k).isSome = true → freshAt m k) :
    (∀ x, ¬((lookupStr m.EnsureUniqueNames.Clientbound x).isSome = true ∧
      (lookupStr m.EnsureUniqueNames.Serverbound x).isSome = true)) ∧
    (∀ k, (lookupStr m.Clientbound k).isSome = true →
      (lookupStr m.Serverbound k).isSome = true →
      lookupStr m.EnsureUniqueNames.Clientbound (k ++ "Clientbound") =
        lookupStr m.Clientbound k ∧
      lookupStr m.EnsureUniqueNames.Serverbound (k ++ "Serverbound") =
        lookupStr m.Serverbound k) := by
  have hks : ∀ j ∈ m.Clientbound.map Prod.fst, (lookupStr m.Clientbound j).isSome = true :=
    fun j hj => (mem_keys_iff _ j).mp hj
  constructor
  · exact foldl_ensureStep_disjoint (m.Clientbound.map Prod.fst) m hndC hks
      (fun x hC _ => (mem_keys_iff _ x).mpr hC) hfresh
  · intro k hC hS
    exact foldl_ensureStep_processed (m.Clientbound.map Prod.fst) m k hndC
      ((mem_keys_iff _ k).mpr hC) hks hfresh hS

theorem foldl_maxLenStep_le_init (l : List (String × String)) (a : Nat) :
    a ≤ l.foldl maxLenStep a := by
  induction l generalizing a with
  | nil => exact Nat.le_refl a
  | cons p rest ih =>
    have h1 : a ≤ maxLenStep a p := by
      simp only [maxLenStep]
      split
      · omega
      · exact Nat.le_refl a
    exact h1.trans (ih (maxLenStep a p))

theorem foldl_maxLenStep_mem_le (l : List (String × String)) (a : Nat) :
    ∀ kv ∈ l, kv.1.length ≤ l.foldl maxLenStep a := by
  induction l generalizing a with
  | nil => intro kv h; exact absurd h (List.not_mem_nil kv)
  | cons p rest ih =>
    intro kv hkv
    rcases List.mem_cons.mp hkv with h | h
    · subst h
      have h1 : kv.1.length ≤ maxLenStep a kv := by
        simp only [maxLenStep]
        split
        · exact Nat.le_refl _
        · omega
      exact h1.trans (foldl_maxLenStep_le_init rest (maxLenStep a kv))
    · exact ih (maxLenStep a p) kv h

theorem foldl_maxLenStep_eq (l : List (String × String)) (a : Nat) :
    l.foldl maxLenStep a = a ∨ ∃ kv ∈ l, l.foldl maxLenStep a = kv.1.length := by
  induction l generalizing a with
  | nil => exact Or.inl rfl
  | cons p rest ih =>
    rcases ih (maxLenStep a p) with h | ⟨kv, hm, he⟩
    · simp only [List.foldl_cons]
      rw [h]
      simp only [maxLenStep]
      split
      · exact Or.inr ⟨p, List.mem_cons_self _ _, rfl⟩
      · exact Or.inl rfl
    · exact Or.inr ⟨kv, List.mem_cons_of_mem _ hm, he⟩

theorem MaxLen_eq_foldl (p : protocolIDs) :
    p.MaxLen = (allEntries p).foldl maxLenStep 0 := by
  simp [protocolIDs.MaxLen, allEntries, maxLenMap, List.foldl_append]

theorem spaces_length (n : Nat) : (spaces n).length = n := by
  simp [spaces, String.length]

theorem identField_length (w : Nat) (n : String) (h : n.length ≤ w) :
    (identField w n).length = w := by
  rw [identField, String.length_append, spaces_length]
  omega

theorem declLine_eq_specDecl (w : Nat) (kv : String × String) :
    declLine w kv = specDecl w kv := by
  simp [declLine, specDecl, identField, String.append_assoc]

theorem groupDecls_eq_spec (w : Nat) (m : List (String × String)) :
    groupDecls w m = m.map (specDecl w) := by
  simp only [groupDecls]
  exact List.map_congr_left (fun kv _ => declLine_eq_specDecl w kv)

theorem spacefree_append_eq (a b x y : List Char)
    (ha : ' ' ∉ a) (hb : ' ' ∉ b) (h : a ++ ' ' :: x = b ++ ' ' :: y) : a = b := by
  induction a generalizing b with
  | nil =>
    cases b with
    | nil => rfl
    | cons d b2 =>
      exfalso
      have hd : d = ' ' := by
        have h2 := congrArg (fun l => l.head?) h
        simpa using h2.symm
      exact hb (hd ▸ List.mem_cons_self d b2)
  | cons c a2 ih =>
    cases b with
    | nil =>
      exfalso
      have hc : c = ' ' := by
        have h2 := congrArg (fun l => l.head?) h
        simpa using h2
      exact ha (hc ▸ List.mem_cons_self c a2)
    | cons d b2 =>
      have h2 : c = d ∧ a2 ++ ' ' :: x = b2 ++ ' ' :: y := by
        simpa using h
      have ha2 : ' ' ∉ a2 := fun hm => ha (List.mem_cons_of_mem c hm)
      have hb2 : ' ' ∉ b2 := fun hm => hb (List.mem_cons_of_mem d hm)
      rw [h2.1, ih b2 ha2 hb2 h2.2]

theorem string_data_inj {a b : String} (h : a.data = b.data) : a = b := by
  obtain ⟨d1⟩ := a
  obtain ⟨d2⟩ := b
  exact congrArg String.mk h

theorem declLine_inj_fst (w : Nat) (kv1 kv2 : String × String)
    (h1 : ' ' ∉ kv1.1.data) (h2 : ' ' ∉ kv2.1.data)
    (h : declLine w kv1 = declLine w kv2) : kv1.1 = kv2.1 := by
  have hsp : ∀ k : String, ∃ t, (spaces (w - k.length)).data ++ " PktID = ".data = ' ' :: t := by
    intro k
    cases hn : w - k.length with
    | zero => exact ⟨"PktID = ".data, by simp [spaces]⟩
    | succ n2 =>
      exact ⟨List.replicate n2 ' ' ++ " PktID = ".data, by simp [spaces, List.replicate_succ]⟩
  obtain ⟨t1, ht1⟩ := hsp kv1.1
  obtain ⟨t2, ht2⟩ := hsp kv2.1
  have hd := congrArg String.data h
  simp only [declLine, String.data_append, List.append_assoc] at hd
  have hd2 := List.append_cancel_left hd
  have hr1 : (spaces (w - kv1.1.length)).data ++ (" PktID = ".data ++ kv1.2.data) =
      ' ' :: (t1 ++ kv1.2.data) := by
    rw [← List.append_assoc, ht1]
    simp
  have hr2 : (spaces (w - kv2.1.length)).data ++ (" PktID = ".data ++ kv2.2.data) =
      ' ' :: (t2 ++ kv2.2.data) := by
    rw [← List.append_assoc, ht2]
    simp
  rw [hr1, hr2] at hd2
  exact string_data_inj (spacefree_append_eq _ _ _ _ h1 h2 hd2)

theorem groupDecls_nodup (w : Nat) (m : List (String × String))
    (hnd : (m.map Prod.fst).Nodup)
    (hsp : ∀ k ∈ m.map Prod.fst, ' ' ∉ k.data) :
    (groupDecls w m).Nodup := by
  induction m with
  | nil => simp [groupDecls]
  | cons p rest ih =>
    simp only [List.map_cons, List.nodup_cons] at hnd
    have hspr : ∀ k ∈ rest.map Prod.fst, ' ' ∉ k.data :=
      fun k hk => hsp k (List.mem_cons_of_mem _ hk)
    have hhead : declLine w p ∉ groupDecls w rest := by
      intro hm
      simp only [groupDecls, List.mem_map] at hm
      obtain ⟨kv, hkv, he⟩ := hm
      have hkeq := declLine_inj_fst w kv p
        (hspr kv.1 (List.mem_map_of_mem Prod.fst hkv))
        (hsp p.1 (List.mem_cons_self _ _)) he
      exact hnd.1 (hkeq ▸ List.mem_map_of_mem Prod.fst hkv)
    simp only [groupDecls, List.map_cons, List.nodup_cons]
    exact ⟨hhead, ih hnd.2 hspr⟩

theorem except_bind_ok {ε α β : Type} (a : α) (f : α → Except ε β) :
    (Except.ok a >>= f) = f a := rfl

theorem except_bind_error {ε α β : Type} (e : ε) (f : α → Except ε β) :
    ((Except.error e : Except ε α) >>= f) = Except.error e := rfl

theorem unnestSpec_cons (input : List (String × JValue)) (k : String) (ks : List String) :
    unnestSpec input (k :: ks) =
      match jLookup input k with
      | some sub =>
        match asObj sub with
        | some o => unnestSpec o ks
        | none => none
      | none => none := by
  cases hjl : jLookup input k with
  | none => simp [unnestSpec, hjl]
  | some sub => cases sub <;> simp [unnestSpec, hjl, asObj]

theorem unnest_agrees : ∀ (keys : List String) (input : List (String × JValue)),
    (∀ o, unnestSpec input keys = some o → unnest input keys = Except.ok o) ∧
    (unnestSpec input keys = none → ∃ e, unnest input keys = Except.error e) := by
  intro keys
  induction keys with
  | nil =>
    intro input
    constructor
    · intro o ho
      simp only [unnestSpec, Option.some.injEq] at ho
      rw [← ho]
      rfl
    · intro h
      simp [unnestSpec] at h
  | cons k ks ih =>
    intro input
    cases hjl : jLookup input k with
    | none =>
      constructor
      · intro o ho
        rw [unnestSpec_cons] at ho
        simp [hjl] at ho
      · intro _
        have hu : unnest input (k :: ks) =
            Except.error ("key \"" ++ k ++ "\" not found") := by
          simp only [unnest, hjl]
        exact ⟨_, hu⟩
    | some sub =>
      cases hao : asObj sub with
      | none =>
        constructor
        · intro o ho
          rw [unnestSpec_cons] at ho
          simp [hjl, hao] at ho
        · intro _
          have hu : unnest input (k :: ks) = Except.error
              ("key \"" ++ k ++ "\" was " ++ typeName sub ++ ", expected a string map") := by
            simp only [unnest, hjl, hao]
          exact ⟨_, hu⟩
      | some o2 =>
        constructor
        · intro o ho
          rw [unnestSpec_cons] at ho
          simp only [hjl, hao] at ho
          have h2 := (ih o2).1 o ho
          simp only [unnest, hjl, hao]
          exact h2
        · intro hn
          rw [unnestSpec_cons] at hn
          simp only [hjl, hao] at hn
          obtain ⟨e, he⟩ := (ih o2).2 hn
          refine ⟨e, ?_⟩
          simp only [unnest, hjl, hao]
          exact he

/-! ### Claim theorems -/

/-- Claim C9: for every input map and key sequence, `unnest` returns an
error exactly when walking the keys in order hits a key that is absent or
whose value is not a nested string-keyed map; otherwise it returns the map
reached after the last key; with an empty key sequence it returns the
input unchanged. (The model is a total function, reflecting that `unnest`
uses only comma-ok forms and cannot panic.) -/
theorem c9_unnest_characterization (input : List (String × JValue)) (keys : List String) :
    ((∃ e, unnest input keys = Except.error e) ↔ unnestSpec input keys = none) ∧
    (∀ o, unnest input keys = Except.ok o ↔ unnestSpec input keys = some o) ∧
    unnest input [] = Except.ok input := by
  have hag := unnest_agrees keys input
  refine ⟨⟨?_, ?_⟩, fun o => ⟨?_, ?_⟩, rfl⟩
  · rintro ⟨e, he⟩
    cases hs : unnestSpec input keys with
    | none => rfl
    | some o =>
      rw [hag.1 o hs] at he
      simp at he
  · intro hs
    exact hag.2 hs
  · intro ho
    cases hs : unnestSpec input keys with
    | none =>
      obtain ⟨e, he⟩ := hag.2 hs
      rw [ho] at he
      simp at he
    | some o2 =>
      have h2 := ho.symm.trans (hag.1 o2 hs)
      simp only [Except.ok.injEq] at h2
      rw [h2]
  · intro hs
    exact hag.1 o hs

/-- Claim C9 witness: the characterization applied at a concrete document
and path. -/
theorem c9_unnest_characterization_witness :
    unnest c2Data ["status", "toClient"] = Except.error "key \"toClient\" not found" ∧
    unnestSpec c2Data ["status", "toClient"] = none := by
  have h := c9_unnest_characterization c2Data ["status", "toClient"]
  exact ⟨rfl, h.1.mp ⟨"key \"toClient\" not found", rfl⟩⟩

/-- Claim C1 counterexample: a document whose `login/toClient/types`
object exists but lacks the `packet` key makes the navigation terminate
abnormally (a failed bare type assertion), not return a `SchemaError`. -/
theorem c1_counterexample :
    unpackMapping c1Data "login" = Except.error (GoError.panicked
      "interface conversion: interface \x7b\x7d is <nil>, not []interface \x7b\x7d") := rfl

/-- Claim C1 (amended): only the steps walked by `unnest`
(phase, direction, "types") produce a returned `SchemaError` identifying
the offending key; the remaining steps of the path (packet, positional
indices, type, mappings) are bare type assertions that panic on mismatch
(see the counterexample). -/
theorem c1_unnest_steps_report_schema_error :
    (∀ data gs dir e, unnest data [gs, dir, "types"] = Except.error e →
      dirMapping data gs dir = Except.error (GoError.schemaErr e)) ∧
    (∀ data gs e, unnest data [gs, "toClient", "types"] = Except.error e →
      unpackMapping data gs = Except.error (GoError.schemaErr e)) ∧
    (∀ data gs cb e, dirMapping data gs "toClient" = Except.ok cb →
      unnest data [gs, "toServer", "types"] = Except.error e →
      unpackMapping data gs = Except.error (GoError.schemaErr e)) := by
  have hdir : ∀ data gs dir e, unnest data [gs, dir, "types"] = Except.error e →
      dirMapping data gs dir = Except.error (GoError.schemaErr e) := by
    intro data gs dir e h
    simp [dirMapping, h, except_bind_error]
  refine ⟨hdir, ?_, ?_⟩
  · intro data gs e h
    simp [unpackMapping, hdir data gs "toClient" e h, except_bind_error]
  · intro data gs cb e hcb h
    simp [unpackMapping, hcb, hdir data gs "toServer" e h, except_bind_ok, except_bind_error]

/-- Claim C1 witness: the amended claim applied at a concrete document. -/
theorem c1_unnest_steps_report_schema_error_witness :
    unpackMapping [] "login" = Except.error (GoError.schemaErr "key \"login\" not found") :=
  c1_unnest_steps_report_schema_error.2.1 [] "login" "key \"login\" not found" rfl

/-- Claim C2: on a document whose status phase is missing `toClient`, the
run aborts with exit status 1 before creating the output file, but the
error message printed names the play phase, not the status phase whose
navigation failed (the status branch of `downloadInfo` wraps its error
with the label "play"). -/
theorem c2_status_error_mislabeled :
    runMain c2Data = mainOutcome.exitOne "Error: play: key \"toClient\" not found" ∧
    unpackMapping c2Data "play" =
      Except.ok { Clientbound := [("Chat", "0x0F")], Serverbound := [("UseItem", "0x03")] } ∧
    unpackMapping c2Data "status" =
      Except.error (GoError.schemaErr "key \"toClient\" not found") :=
  ⟨rfl, rfl, rfl⟩

/-- Claim C3 counterexample: the two directions share the name `Chat`, yet
after `EnsureUniqueNames` the two maps still share the key
`ChatClientbound` (a pre-existing serverbound key equal to the suffixed
form). -/
theorem c3_counterexample :
    ("Chat" ∈ c3m.Clientbound.map Prod.fst ∧ "Chat" ∈ c3m.Serverbound.map Prod.fst) ∧
    "ChatClientbound" ∈ c3m.EnsureUniqueNames.Clientbound.map Prod.fst ∧
    "ChatClientbound" ∈ c3m.EnsureUniqueNames.Serverbound.map Prod.fst := by decide

/-- Claim C3 (amended): provided the Clientbound keys are distinct and no
shared name's direction-suffixed form already occurs as a key of either
map, after `EnsureUniqueNames` the two maps share zero keys, and each
previously shared name is present with suffix `Clientbound` (resp.
`Serverbound`) mapped to its original id. -/
theorem c3_collision_resolution (m : duplexMappings)
    (hndC : (m.Clientbound.map Prod.fst).Nodup)
    (hfresh : ∀ k ∈ m.Clientbound.map Prod.fst,
      (lookupStr m.Serverbound k).isSome = true → freshAt m k) :
    (∀ x, ¬(x ∈ m.EnsureUniqueNames.Clientbound.map Prod.fst ∧
      x ∈ m.EnsureUniqueNames.Serverbound.map Prod.fst)) ∧
    (∀ k, k ∈ m.Clientbound.map Prod.fst → k ∈ m.Serverbound.map Prod.fst →
      lookupStr m.EnsureUniqueNames.Clientbound (k ++ "Clientbound") =
        lookupStr m.Clientbound k ∧
      lookupStr m.EnsureUniqueNames.Serverbound (k ++ "Serverbound") =
        lookupStr m.Serverbound k) := by
  have h := EnsureUniqueNames_spec m hndC hfresh
  constructor
  · intro x hx
    exact h.1 x ⟨(mem_keys_iff _ x).mp hx.1, (mem_keys_iff _ x).mp hx.2⟩
  · intro k hC hS
    exact h.2 k ((mem_keys_iff _ k).mp hC) ((mem_keys_iff _ k).mp hS)

/-- Claim C3 witness: the spec's own scenario, normalized:
clientbound `SpawnEntity→5, Chat→6`, serverbound `Chat→3, UseItem→7`. -/
theorem c3_collision_resolution_witness :
    ¬("Chat" ∈ w3m.EnsureUniqueNames.Clientbound.map Prod.fst ∧
      "Chat" ∈ w3m.EnsureUniqueNames.Serverbound.map Prod.fst) ∧
    lookupStr w3m.EnsureUniqueNames.Clientbound "ChatClientbound" = some "6" ∧
    lookupStr w3m.EnsureUniqueNames.Serverbound "ChatServerbound" = some "3" := by
  have h := c3_collision_resolution w3m (by decide) (by decide)
  refine ⟨h.1 "Chat", ?_, ?_⟩
  · have h2 := (h.2 "Chat" (by decide) (by decide)).1
    have h3 : ("Chat" ++ "Clientbound" : String) = "ChatClientbound" := rfl
    rw [h3] at h2
    rw [h2]
    rfl
  · have h2 := (h.2 "Chat" (by decide) (by decide)).2
    have h3 : ("Chat" ++ "Serverbound" : String) = "ChatServerbound" := rfl
    rw [h3] at h2
    rw [h2]
    rfl

/-- Claim C4 counterexample: a run that succeeds and produces an output
file in which the identifier `Ping` is emitted by both the login and the
status phase. -/
theorem c4_counterexample :
    buildProtocolIDs c4Data = Except.ok (builtIDs c4Data) ∧
    ¬(allNames (builtIDs c4Data)).Nodup := ⟨rfl, by decide⟩

/-- Claim C4 (amended): emitted names are unique within one phase (across
its two direction groups), provided each directional map has distinct keys
and shared names have fresh suffixed forms; uniqueness does not extend
across phases (see the counterexample). -/
theorem c4_phase_names_unique (m : duplexMappings)
    (hndC : (m.Clientbound.map Prod.fst).Nodup)
    (hndS : (m.Serverbound.map Prod.fst).Nodup)
    (hfresh : ∀ k ∈ m.Clientbound.map Prod.fst,
      (lookupStr m.Serverbound k).isSome = true → freshAt m k) :
    (phaseNames m.EnsureUniqueNames).Nodup := by
  have hnd := keys_nodup_foldl_ensureStep (m.Clientbound.map Prod.fst) m hndC hndS
  have hdisj := (EnsureUniqueNames_spec m hndC hfresh).1
  simp only [phaseNames]
  refine List.Nodup.append hnd.1 hnd.2 ?_
  intro a haC haS
  exact hdisj a ⟨(mem_keys_iff _ a).mp haC, (mem_keys_iff _ a).mp haS⟩

/-- Claim C4 witness: the amended claim applied to a concrete phase with a
collision. -/
theorem c4_phase_names_unique_witness : (phaseNames w4m.EnsureUniqueNames).Nodup :=
  c4_phase_names_unique w4m (by decide) (by decide) (by decide)

/-- Claim C5: `MaxLen` is an upper bound on the length of every emitted
name, is attained by some name whenever any name exists, and every
declaration line's identifier field (name plus padding) is exactly
`MaxLen` columns wide. -/
theorem c5_alignment (p : protocolIDs) :
    (∀ n ∈ allNames p, n.length ≤ p.MaxLen) ∧
    (allNames p ≠ [] → ∃ n ∈ allNames p, n.length = p.MaxLen) ∧
    (∀ n ∈ allNames p, (identField p.MaxLen n).length = p.MaxLen) ∧
    (∀ w kv, declLine w kv = "  " ++ identField w kv.1 ++ (" PktID = " ++ kv.2)) := by
  have hle : ∀ n ∈ allNames p, n.length ≤ p.MaxLen := by
    intro n hn
    rw [MaxLen_eq_foldl]
    obtain ⟨kv, hkv, he⟩ := List.mem_map.mp hn
    exact he ▸ foldl_maxLenStep_mem_le (allEntries p) 0 kv hkv
  refine ⟨hle, ?_, ?_, ?_⟩
  · intro hne
    rcases foldl_maxLenStep_eq (allEntries p) 0 with h | ⟨kv, hm, he⟩
    · obtain ⟨n, hn⟩ := List.exists_mem_of_ne_nil _ hne
      refine ⟨n, hn, ?_⟩
      have h1 := hle n hn
      rw [MaxLen_eq_foldl, h]
      rw [MaxLen_eq_foldl, h] at h1
      omega
    · exact ⟨kv.1, List.mem_map_of_mem Prod.fst hm, by rw [MaxLen_eq_foldl, he]⟩
  · intro n hn
    exact identField_length _ _ (hle n hn)
  · intro w kv
    simp [declLine, identField, String.append_assoc]

/-- Claim C5 witness: the alignment properties at a concrete run. -/
theorem c5_alignment_witness :
    allNames w5p ≠ [] ∧ ∃ n ∈ allNames w5p, n.length = w5p.MaxLen := by
  have h := c5_alignment w5p
  exact ⟨by decide, h.2.1 (by decide)⟩

/-- Claim C6: the generated file is exactly the header lines followed by
the constant block the spec describes — the six direction groups in fixed
order (login, play, status; clientbound before serverbound), each preceded
by its descriptive comment line, each entry printed as the padded
identifier, the type annotation, and the verbatim id text, with a blank
line after each phase — and the closing parenthesis. -/
theorem c6_output_layout (p : protocolIDs) :
    outputLines p = headerLines ++ specConstBlock p ++ [")"] := by
  simp [outputLines, specConstBlock, specGroup, groupDecls_eq_spec, List.append_assoc]

/-- Claim C7 counterexample: a successful run in which login and status
both declare a clientbound packet `ping` with the same id, so the constant
block contains two identical declaration lines. -/
theorem c7_counterexample :
    buildProtocolIDs c7Data = Except.ok (builtIDs c7Data) ∧
    ¬(declLinesAll (builtIDs c7Data)).Nodup := ⟨rfl, by decide⟩

/-- Claim C7 (amended): the constant block contains exactly one
declaration line per entry of the six directional maps (their total
count), and within one direction group no two lines coincide (given
distinct, space-free names); identical lines can occur across different
groups when name and id both coincide (see the counterexample). -/
theorem c7_decl_lines :
    (∀ p : protocolIDs, (declLinesAll p).length =
      p.Login.Clientbound.length + p.Login.Serverbound.length + p.Play.Clientbound.length +
      p.Play.Serverbound.length + p.Status.Clientbound.length + p.Status.Serverbound.length) ∧
    (∀ (w : Nat) (m : List (String × String)), (m.map Prod.fst).Nodup →
      (∀ k ∈ m.map Prod.fst, ' ' ∉ k.data) → (groupDecls w m).Nodup) := by
  constructor
  · intro p
    simp only [declLinesAll, groupDecls, List.length_append, List.length_map]
  · exact groupDecls_nodup

/-- Claim C7 witness: the count and the per-group distinctness at concrete
inputs. -/
theorem c7_decl_lines_witness :
    (declLinesAll w5p).length = 6 ∧ (groupDecls 3 [("A", "1"), ("B", "2")]).Nodup := by
  have h := c7_decl_lines
  refine ⟨?_, h.2 3 [("A", "1"), ("B", "2")] (by decide) (by decide)⟩
  rw [h.1 w5p]
  decide

/-- Claim C8: a phase/direction whose directional map is empty contributes
zero declaration lines but its descriptive comment line is still printed. -/
theorem c8_empty_group (p : protocolIDs) (ph : PhaseName) (d : DirName)
    (h : dirMap (phaseMap p ph) d = []) :
    groupLines p ph d = [commentOf ph d] ∧ commentOf ph d ∈ outputLines p := by
  constructor
  · simp [groupLines, groupDecls, h]
  · cases ph <;> cases d <;> simp [outputLines, commentOf]

/-- Claim C8 witness: a run whose status serverbound group is empty. -/
theorem c8_empty_group_witness :
    groupLines w8p PhaseName.status DirName.serverbound =
      [commentOf PhaseName.status DirName.serverbound] ∧
    commentOf PhaseName.status DirName.serverbound ∈ outputLines w8p :=
  c8_empty_group w8p PhaseName.status DirName.serverbound rfl

/-- Claim C10: two distinct raw names in one directional mapping (`chat`
and `Chat`) normalize to the same camel-case identifier, and
`unpackMapping` silently keeps only one of the two ids: the raw mapping
has two entries, the produced directional mapping one. -/
theorem c10_name_collision_drops_entry :
    c10RawMappings.length = 2 ∧
    unpackMapping c10Data "play" = Except.ok c10Result ∧
    c10Result.Clientbound.length = 1 ∧
    lookupStr c10Result.Clientbound "Chat" = some "0x01" :=
  ⟨rfl, rfl, rfl, rfl⟩

end PacketGen
